import Mathlib

/-!
Verification development for the `subradar` signal-inversion module
(`src/invert.py`).  The two routines under study are

* `srf2power_norminc` - the Forward Predictor: power components over a
  circular footprint at normal incidence from surface properties;
* `power2srf_norminc` - the Inverse Grid Solver: surface properties from
  observed power components.

Numbers are modelled by `FV`, IEEE-style floating values: a finite value
(an unnormalized integer fraction), `+Inf`, `-Inf`, or `NaN`, with the
NumPy semantics of arithmetic, comparison and the domain behaviour of
`log`, `log10`, `sqrt` on zero / negative arguments.  The transcendental
functions themselves (values on positive finite inputs) are abstract
kernels carried by an `Ops` record, since the claims under study never
depend on their analytic values.  External collaborators (the scattering
model library, the quadrature routine, the `Signal` and `utils.R`
helpers) are abstract parameters, or definitions modelled from the spec
where noted.
-/

/-- An unnormalized fraction `p / q` of integers.  It models a finite
floating-point value; the denominator is kept nonzero by construction in
all values the development builds. -/
structure Frac where
  p : Int
  q : Int
deriving DecidableEq, Repr

/-- The fraction `n / 1`. -/
def Frac.ofInt (n : Int) : Frac := ⟨n, 1⟩

/-- Fraction addition. -/
def Frac.add (a b : Frac) : Frac := ⟨a.p * b.q + b.p * a.q, a.q * b.q⟩

/-- Fraction multiplication. -/
def Frac.mul (a b : Frac) : Frac := ⟨a.p * b.p, a.q * b.q⟩

/-- Fraction division. -/
def Frac.div (a b : Frac) : Frac := ⟨a.p * b.q, a.q * b.p⟩

/-- Fraction negation. -/
def Frac.neg (a : Frac) : Frac := ⟨-a.p, a.q⟩

/-- Does the fraction denote the value zero? -/
def Frac.isZeroB (a : Frac) : Bool := a.p == 0

/-- Does the fraction denote a negative value? -/
def Frac.isNegB (a : Frac) : Bool := decide (a.p * a.q < 0)

/-- Value comparison of fractions: `a < b`. -/
def Frac.ltB (a b : Frac) : Bool :=
  decide ((a.p * b.q - b.p * a.q) * (a.q * b.q) < 0)

/-- Value equality of fractions. -/
def Frac.eqvB (a b : Frac) : Bool := a.p * b.q == b.p * a.q

/-- A floating value: finite fraction, `+Inf`, `-Inf` or `NaN`. -/
inductive FV where
  | fin : Frac → FV
  | pinf : FV
  | ninf : FV
  | nan : FV
deriving DecidableEq, Repr

/-- The floating value of an integer. -/
def FV.int (n : Int) : FV := FV.fin (Frac.ofInt n)

/-- Is the value `NaN`? -/
def FV.isNaN : FV → Bool
  | FV.nan => true
  | _ => false

/-- Is the value one of the two infinities (NumPy `isinf`)? -/
def FV.isInf : FV → Bool
  | FV.pinf => true
  | FV.ninf => true
  | _ => false

/-- Is the value finite? -/
def FV.isFin : FV → Bool
  | FV.fin _ => true
  | _ => false

/-- NumPy `!= 0` comparison: true for any value other than (a fraction
denoting) zero, in particular true for `NaN` and the infinities. -/
def FV.neZeroB : FV → Bool
  | FV.fin a => !a.isZeroB
  | _ => true

/-- Strict `<` comparison with IEEE semantics: any comparison involving
`NaN` is false. -/
def FV.lt : FV → FV → Bool
  | FV.nan, _ => false
  | _, FV.nan => false
  | FV.fin a, FV.fin b => a.ltB b
  | FV.fin _, FV.pinf => true
  | FV.fin _, FV.ninf => false
  | FV.pinf, _ => false
  | FV.ninf, FV.fin _ => true
  | FV.ninf, FV.pinf => true
  | FV.ninf, FV.ninf => false

/-- IEEE value equality test (`NaN` equal to nothing, including itself). -/
def FV.eqvB : FV → FV → Bool
  | FV.nan, _ => false
  | _, FV.nan => false
  | FV.fin a, FV.fin b => a.eqvB b
  | FV.pinf, FV.pinf => true
  | FV.ninf, FV.ninf => true
  | _, _ => false

/-- IEEE addition. -/
def FV.add : FV → FV → FV
  | FV.nan, _ => FV.nan
  | _, FV.nan => FV.nan
  | FV.fin a, FV.fin b => FV.fin (a.add b)
  | FV.fin _, FV.pinf => FV.pinf
  | FV.fin _, FV.ninf => FV.ninf
  | FV.pinf, FV.fin _ => FV.pinf
  | FV.ninf, FV.fin _ => FV.ninf
  | FV.pinf, FV.pinf => FV.pinf
  | FV.pinf, FV.ninf => FV.nan
  | FV.ninf, FV.pinf => FV.nan
  | FV.ninf, FV.ninf => FV.ninf

/-- IEEE negation. -/
def FV.neg : FV → FV
  | FV.fin a => FV.fin a.neg
  | FV.pinf => FV.ninf
  | FV.ninf => FV.pinf
  | FV.nan => FV.nan

/-- IEEE multiplication (`0 * Inf = NaN`). -/
def FV.mul : FV → FV → FV
  | FV.nan, _ => FV.nan
  | _, FV.nan => FV.nan
  | FV.fin a, FV.fin b => FV.fin (a.mul b)
  | FV.fin a, FV.pinf =>
      if a.isZeroB then FV.nan else if a.isNegB then FV.ninf else FV.pinf
  | FV.fin a, FV.ninf =>
      if a.isZeroB then FV.nan else if a.isNegB then FV.pinf else FV.ninf
  | FV.pinf, FV.fin b =>
      if b.isZeroB then FV.nan else if b.isNegB then FV.ninf else FV.pinf
  | FV.ninf, FV.fin b =>
      if b.isZeroB then FV.nan else if b.isNegB then FV.pinf else FV.ninf
  | FV.pinf, FV.pinf => FV.pinf
  | FV.pinf, FV.ninf => FV.ninf
  | FV.ninf, FV.pinf => FV.ninf
  | FV.ninf, FV.ninf => FV.pinf

/-- IEEE division (`x / 0` is a signed infinity or `NaN`, as NumPy float
division). -/
def FV.div : FV → FV → FV
  | FV.nan, _ => FV.nan
  | _, FV.nan => FV.nan
  | FV.fin a, FV.fin b =>
      if b.isZeroB then
        if a.isZeroB then FV.nan else if a.isNegB then FV.ninf else FV.pinf
      else FV.fin (a.div b)
  | FV.fin _, FV.pinf => FV.int 0
  | FV.fin _, FV.ninf => FV.int 0
  | FV.pinf, FV.fin b => if b.isNegB then FV.ninf else FV.pinf
  | FV.ninf, FV.fin b => if b.isNegB then FV.pinf else FV.ninf
  | FV.pinf, FV.pinf => FV.nan
  | FV.pinf, FV.ninf => FV.nan
  | FV.ninf, FV.pinf => FV.nan
  | FV.ninf, FV.ninf => FV.nan

/-- Squaring, `x ** 2` in the source. -/
def FV.sq (a : FV) : FV := a.mul a

/-- The abstract kernels of the transcendental functions on finite
values.  Their analytic values never decide a claim, so they are data of
the model; the structural behaviour on `NaN`, infinities, zero and
negative arguments is fixed separately in the `FV` wrappers below. -/
structure Ops where
  expQ : Frac → Frac
  logQ : Frac → Frac
  log10Q : Frac → Frac
  sqrtQ : Frac → Frac
  cosQ : Frac → Frac
  arctanQ : Frac → Frac
  pow10Q : Frac → Frac
  atanInfQ : Frac

/-- NumPy `exp`. -/
def FV.exp (o : Ops) : FV → FV
  | FV.fin a => FV.fin (o.expQ a)
  | FV.pinf => FV.pinf
  | FV.ninf => FV.int 0
  | FV.nan => FV.nan

/-- NumPy `log`: `-Inf` at zero, `NaN` on negative arguments. -/
def FV.log (o : Ops) : FV → FV
  | FV.fin a =>
      if a.isZeroB then FV.ninf else if a.isNegB then FV.nan else FV.fin (o.logQ a)
  | FV.pinf => FV.pinf
  | FV.ninf => FV.nan
  | FV.nan => FV.nan

/-- NumPy `log10`: `-Inf` at zero, `NaN` on negative arguments. -/
def FV.log10 (o : Ops) : FV → FV
  | FV.fin a =>
      if a.isZeroB then FV.ninf else if a.isNegB then FV.nan else FV.fin (o.log10Q a)
  | FV.pinf => FV.pinf
  | FV.ninf => FV.nan
  | FV.nan => FV.nan

/-- NumPy `sqrt`: `NaN` on negative arguments. -/
def FV.sqrt (o : Ops) : FV → FV
  | FV.fin a => if a.isNegB then FV.nan else FV.fin (o.sqrtQ a)
  | FV.pinf => FV.pinf
  | FV.ninf => FV.nan
  | FV.nan => FV.nan

/-- NumPy `cos` (`NaN` at the infinities). -/
def FV.cos (o : Ops) : FV → FV
  | FV.fin a => FV.fin (o.cosQ a)
  | FV.pinf => FV.nan
  | FV.ninf => FV.nan
  | FV.nan => FV.nan

/-- NumPy `arctan` (finite limits at the infinities). -/
def FV.arctan (o : Ops) : FV → FV
  | FV.fin a => FV.fin (o.arctanQ a)
  | FV.pinf => FV.fin o.atanInfQ
  | FV.ninf => FV.fin o.atanInfQ.neg
  | FV.nan => FV.nan

/-- One evaluation of the externally resolved scattering capability: the
object `Scattering(th=.., **kwargs)` of the source, exposing the
co-polarized reflection coefficient `R['nn']`, the wavenumber `wk`, the
echoed rms height `sh`, and `nRCS(kind)['hh']` as a function of the
backscatter-kind label. -/
structure ScatEval where
  Rnn : FV
  wk : FV
  sh : FV
  nRCS_hh : String → FV

/-- The output record of the Forward Predictor. -/
structure PowerResult where
  pc : FV
  pn : FV
  ratio : FV
deriving DecidableEq, Repr

/-- The dB conversion `10 * log10 x` of the source. -/
def db10 (o : Ops) (x : FV) : FV := (FV.int 10).mul (FV.log10 o x)

/-- The default backscatter-kind label of the source. -/
def defaultKind : String := "isotropic gaussian"

/-- The Forward Predictor `srf2power_norminc` of `src/invert.py`.
`S` is the externally resolved scattering capability with all keyword
parameters already bound, as a function of the observation angle `th`;
`quad` is the external quadrature routine (first component of
`integrate.quad`); `gain` is the antenna gain function. -/
def srf2power_norminc (o : Ops) (quad : (FV → FV) → FV → FV → FV)
    (S : FV → ScatEval) (gain : FV → FV) (th_max : FV)
    (db : Bool) (kind : String) : PowerResult :=
  let a := S (FV.int 0)
  let pc := (a.Rnn.sq).mul (FV.exp o (((((FV.int 2).mul a.wk).mul a.sh).sq).neg))
  let nRCS := fun th => (S th).nRCS_hh kind
  let integrand := fun th =>
    (((FV.int 2).mul ((gain th).sq)).mul (FV.arctan o th)).div ((th.sq).add (FV.int 1))
  let pn := (quad integrand (FV.int 0) th_max).mul (nRCS (FV.int 0))
  let ratio := pc.div pn
  if db then ⟨db10 o pc, db10 o pn, db10 o ratio⟩ else ⟨pc, pn, ratio⟩

/-- Modelled from the spec: the external numerical quadrature routine
(`scipy.integrate.quad`, not part of this repository).  A definite
integral with equal bounds is 0; on a non-degenerate interval the
estimate is produced by an abstract core. -/
def quadModel (core : (FV → FV) → FV → FV → FV)
    (f : FV → FV) (a b : FV) : FV :=
  if a.eqvB b then FV.int 0 else core f a b

/-- Modelled from the spec: the `Signal` helper of this repository is
not under `src/`; per §6 of the spec it exposes a wavenumber `wk`
derived from the wave parameter and the angle `th` itself.  The
wavenumber derivation is kept abstract. -/
structure SignalModel where
  wkOf : FV → FV

/-- The record returned by the `Signal` helper. -/
structure SignalRec where
  wk : FV
  th : FV

/-- Modelled from the spec: construction of the `Signal` object from
wave parameter, bandwidth and angle; the bandwidth does not enter the
fields this module reads. -/
def Signal (sm : SignalModel) (wf : FV) (bw : FV) (th : FV) : SignalRec :=
  ⟨sm.wkOf wf, th⟩

/-- Modelled from the spec: the reflection-coefficient helper
`utils.R(1, ep, 1, 1, th)` of this repository is not under `src/`; per
§6 of the spec it maps a relative permittivity and an incidence angle to
the normal-incidence reflection magnitude, elementwise over the
permittivity array.  It is kept abstract. -/
structure ReflModel where
  R : FV → FV → FV

/-- NumPy `linspace`: `n` evenly spaced fractions from `a` to `b`
inclusive, as a function of the index. -/
def linspace (a b : Frac) (n : Nat) (i : Nat) : Frac :=
  if n ≤ 1 then a
  else a.add (((b.add a.neg).mul (Frac.ofInt i)).div (Frac.ofInt (n - 1)))

/-- All inputs of the Inverse Grid Solver except the `db` and `kind`
arguments (kept separate because one claim is about them): the abstract
transcendental kernels, the quadrature routine, the resolved scattering
capability `SM` (a function of the wave parameter, the observation
angle, and the surface parameters `ep2`, `sh`, `cl`), the `Signal` and
`utils.R` helper models, the observed powers `pc` and `pn`, the gain
function, the wave parameter, the footprint edge angle, the two search
ranges and the grid size. -/
structure SolverArgs where
  ops : Ops
  quad : (FV → FV) → FV → FV → FV
  SM : FV → FV → FV → FV → FV → ScatEval
  sig : SignalModel
  refl : ReflModel
  pc : FV
  pn : FV
  gain : FV → FV
  wf : FV
  th_max : FV
  er : Frac × Frac
  cr : Frac × Frac
  n : Nat

/-- NumPy behaviour of the float power `10 ** x`. -/
def FV.pow10 (o : Ops) : FV → FV
  | FV.fin a => FV.fin (o.pow10Q a)
  | FV.pinf => FV.pinf
  | FV.ninf => FV.int 0
  | FV.nan => FV.nan

/-- The once-converted linear coherent target, `pc = 10**(pc/10.)` of
the source. -/
def pcLinear (A : SolverArgs) : FV :=
  FV.pow10 A.ops (A.pc.div (FV.int 10))

/-- The `Signal` object `s` built by the solver. -/
def solverSignal (A : SolverArgs) : SignalRec :=
  Signal A.sig A.wf FV.nan A.th_max

/-- The permittivity grid `ep = np.linspace(ep_range[0], ep_range[1], n)`. -/
def epGrid (A : SolverArgs) (i : Nat) : FV :=
  FV.fin (linspace A.er.1 A.er.2 A.n i)

/-- The reflection magnitudes `r = utils.R(1, ep, 1, 1, s.th)`. -/
def rGrid (A : SolverArgs) (i : Nat) : FV :=
  A.refl.R (epGrid A i) (solverSignal A).th

/-- The correlation-length grid
`cl = 10**np.linspace(cl_logrange[0], cl_logrange[1], n)`. -/
def clGrid (A : SolverArgs) (j : Nat) : FV :=
  FV.pow10 A.ops (FV.fin (linspace A.cr.1 A.cr.2 A.n j))

/-- The analytic rms-height formula
`sqrt(log(r**2/pc)) / (2*s.wk*cos(s.th))`, before the `NaN` fix-up. -/
def shFormula (A : SolverArgs) (i : Nat) : FV :=
  (FV.sqrt A.ops (FV.log A.ops (((rGrid A i).sq).div (pcLinear A)))).div
    (((FV.int 2).mul (solverSignal A).wk).mul (FV.cos A.ops (solverSignal A).th))

/-- The rms-height array after `sh[np.isnan(sh)] = 0`. -/
def shFixed (A : SolverArgs) (i : Nat) : FV :=
  if (shFormula A i).isNaN then FV.int 0 else shFormula A i

/-- The predicted incoherent power for grid point `(i, j)`: the inner
call of the solver,
`srf2power_norminc(model, approx, gain=gain, th_max=th_max, wf=wf,
ep2=ep[i], sh=sh[i], cl=cl[j])['pn']`, which leaves the Forward
Predictor at its defaults `db=True`, `kind='isotropic gaussian'`. -/
def solverPn (A : SolverArgs) (i j : Nat) : FV :=
  (srf2power_norminc A.ops A.quad
    (fun th => A.SM A.wf th (epGrid A i) (shFixed A i) (clGrid A j))
    A.gain A.th_max true defaultKind).pn

/-- The acceptance test of the inner loop,
`(tmp < pn) and ~np.isinf(tmp)`. -/
def solverAccept (A : SolverArgs) (i j : Nat) : Bool :=
  (solverPn A i j).lt A.pn && !(solverPn A i j).isInf

/-- `for j in reversed(range(0, jn, 1))`: scan the candidate indices
`jn-1, ..., 0` downward and return the first one accepted, if any. -/
def scanDown (acc : Nat → Bool) : Nat → Option Nat
  | 0 => none
  | j + 1 => if acc j then some j else scanDown acc j

/-- Pointwise array write `out[i] = v`. -/
def upd (f : Nat → FV) (i : Nat) (v : FV) : Nat → FV :=
  fun k => if k = i then v else f k

/-- The mutable state of the outer loop: the shared upper search bound
`jn` and the output array `cl_out`. -/
structure LoopState where
  jn : Nat
  out : Nat → FV

/-- The outer loop of the Inverse Grid Solver over the listed
permittivity indices, threading the shared bound `jn` and the output
array: for each `i` with `sh[i] != 0`, scan correlation-length
candidates from `jn-1` down to `0`; on the first accepted `j`, set
`cl_out[i] = cl[j]` and clamp `jn = min(j+1, n)`. -/
def go (acc : Nat → Nat → Bool) (sh : Nat → FV) (cl : Nat → FV) (n : Nat) :
    List Nat → LoopState → LoopState
  | [], st => st
  | i :: rest, st =>
    if (sh i).neZeroB then
      match scanDown (acc i) st.jn with
      | some j => go acc sh cl n rest ⟨min (j + 1) n, upd st.out i (cl j)⟩
      | none => go acc sh cl n rest st
    else go acc sh cl n rest st

/-- The initial output array `cl_out = np.nan * cl`. -/
def cloutInit (A : SolverArgs) (j : Nat) : FV := FV.nan.mul (clGrid A j)

/-- The output record of the Inverse Grid Solver,
`{'ep': ep, 'sh': sh, 'cl': cl_out}`. -/
structure SurfaceEstimate where
  ep : Nat → FV
  sh : Nat → FV
  cl : Nat → FV

/-- The Inverse Grid Solver `power2srf_norminc` of `src/invert.py`.
The `db` and `kind` arguments of the source signature are accepted and,
as in the source body, never read; the `verbose` argument only prints
and is omitted. -/
def power2srf_norminc (A : SolverArgs) (db : Bool) (kind : String) :
    SurfaceEstimate :=
  let final := go (solverAccept A) (shFixed A) (clGrid A) A.n
    (List.range A.n) ⟨A.n, cloutInit A⟩
  ⟨epGrid A, shFixed A, final.out⟩

/-- The independent-search variant of the outer loop, following the
words of the spec: each permittivity index runs its correlation-length
scan from the full bound `n`, with no shared state. -/
def goIndep (acc : Nat → Nat → Bool) (sh : Nat → FV) (cl : Nat → FV) (n : Nat) :
    List Nat → (Nat → FV) → (Nat → FV)
  | [], out => out
  | i :: rest, out =>
    if (sh i).neZeroB then
      match scanDown (acc i) n with
      | some j => goIndep acc sh cl n rest (upd out i (cl j))
      | none => goIndep acc sh cl n rest out
    else goIndep acc sh cl n rest out

/-- The Inverse Grid Solver variant that, following the words of the
spec, recomputes each permittivity's search independently with
`jn = n`. -/
def power2srf_indep (A : SolverArgs) (db : Bool) (kind : String) :
    SurfaceEstimate :=
  ⟨epGrid A, shFixed A,
    goIndep (solverAccept A) (shFixed A) (clGrid A) A.n
      (List.range A.n) (cloutInit A)⟩

/-- Comparison of two optional hit indices: when both scans hit, the
later one must not be higher. -/
def hitLeB : Option Nat → Option Nat → Bool
  | some j1, some j2 => decide (j2 ≤ j1)
  | _, _ => true

/-- The monotone-crossing assumption of the spec: over the active
permittivity indices, the independently-found accepted candidate
indices never increase. -/
def hitMono (A : SolverArgs) : Prop :=
  ∀ i1, i1 < A.n → ∀ i2, i2 < A.n → i1 < i2 →
    (shFixed A i1).neZeroB = true → (shFixed A i2).neZeroB = true →
    hitLeB (scanDown (solverAccept A i1) A.n) (scanDown (solverAccept A i2) A.n) = true

/-- The relation between two permittivity indices demanded by the
monotone-crossing assumption: when both are active and both independent
scans hit, the later hit is not higher. -/
def hitRel (acc : Nat → Nat → Bool) (sh : Nat → FV) (n : Nat) (i1 i2 : Nat) : Prop :=
  (sh i1).neZeroB = true → (sh i2).neZeroB = true →
    hitLeB (scanDown (acc i1) n) (scanDown (acc i2) n) = true

/-- Does the value denote finite zero? -/
def FV.isZeroValB : FV → Bool
  | FV.fin a => a.isZeroB
  | _ => false

namespace Ex

/-- Concrete transcendental kernels for the executable examples: the
base-10 power adds one (so the two correlation-length grid points are
the distinct values 1 and 2), `log10` is the identity kernel, `sqrt`
and `cos` are the constant 1, `log`, `exp` and `arctan` the constant 0. -/
def o : Ops :=
  ⟨fun _ => Frac.ofInt 0, fun _ => Frac.ofInt 0, fun a => a,
   fun _ => Frac.ofInt 1, fun _ => Frac.ofInt 1, fun _ => Frac.ofInt 0,
   fun a => a.add (Frac.ofInt 1), Frac.ofInt 0⟩

/-- Kernels as in `Ex.o` except that the base-10 power is the constant
`-1`, making the log argument of the analytic rms-height formula
negative, hence the formula `NaN`. -/
def oN : Ops :=
  ⟨fun _ => Frac.ofInt 0, fun _ => Frac.ofInt 0, fun a => a,
   fun _ => Frac.ofInt 1, fun _ => Frac.ofInt 1, fun _ => Frac.ofInt 0,
   fun _ => Frac.ofInt (-1), Frac.ofInt 0⟩

/-- A normalized-radar-cross-section table on the 2-by-2 example grid
whose acceptance crossing moves up with permittivity: the first
permittivity accepts only the lower correlation length, the second only
the higher one. -/
def nrA (ep2 cl : FV) : FV :=
  if ep2 = FV.int 0 then (if cl = FV.int 1 then FV.fin ⟨1, 4⟩ else FV.int 1)
  else (if cl = FV.int 2 then FV.fin ⟨1, 4⟩ else FV.int 1)

/-- A table whose acceptance crossing moves down with permittivity, so
the monotone-crossing assumption holds. -/
def nrB (ep2 cl : FV) : FV :=
  if ep2 = FV.int 0 then (if cl = FV.int 2 then FV.fin ⟨1, 4⟩ else FV.int 1)
  else (if cl = FV.int 1 then FV.fin ⟨1, 4⟩ else FV.int 1)

/-- Scattering capability built over `nrA`. -/
def SMA (wf th ep2 sh cl : FV) : ScatEval :=
  ⟨FV.int 1, FV.int 1, sh, fun _ => nrA ep2 cl⟩

/-- Scattering capability built over `nrB`. -/
def SMB (wf th ep2 sh cl : FV) : ScatEval :=
  ⟨FV.int 1, FV.int 1, sh, fun _ => nrB ep2 cl⟩

/-- Concrete solver inputs over `SMA`: unit reflection and wavenumber,
observed coherent power 0 dB, incoherent target 5 dB, a 2-point
permittivity grid over [0, 1] and a 2-point log correlation-length grid
over [0, 1]. -/
def A : SolverArgs :=
  ⟨o, fun _ _ _ => FV.int 1, SMA, ⟨fun _ => FV.int 1⟩, ⟨fun _ _ => FV.int 1⟩,
   FV.int 0, FV.int 5, fun _ => FV.int 1, FV.int 0, FV.int 0,
   (Frac.ofInt 0, Frac.ofInt 1), (Frac.ofInt 0, Frac.ofInt 1), 2⟩

/-- The same solver inputs over `SMB`. -/
def B : SolverArgs :=
  ⟨o, fun _ _ _ => FV.int 1, SMB, ⟨fun _ => FV.int 1⟩, ⟨fun _ _ => FV.int 1⟩,
   FV.int 0, FV.int 5, fun _ => FV.int 1, FV.int 0, FV.int 0,
   (Frac.ofInt 0, Frac.ofInt 1), (Frac.ofInt 0, Frac.ofInt 1), 2⟩

/-- The same solver inputs over the `NaN`-producing kernels `oN`. -/
def AN : SolverArgs :=
  ⟨oN, fun _ _ _ => FV.int 1, SMA, ⟨fun _ => FV.int 1⟩, ⟨fun _ _ => FV.int 1⟩,
   FV.int 0, FV.int 5, fun _ => FV.int 1, FV.int 0, FV.int 0,
   (Frac.ofInt 0, Frac.ofInt 1), (Frac.ofInt 0, Frac.ofInt 1), 2⟩

/-- A constant scattering capability with finite cross section, for the
degenerate-footprint example. -/
def S9 (th : FV) : ScatEval := ⟨FV.int 1, FV.int 1, FV.int 1, fun _ => FV.int 3⟩

/-- An arbitrary quadrature core for the degenerate-footprint example. -/
def core9 (f : FV → FV) (a b : FV) : FV := FV.int 7

end Ex

theorem scanDown_some {acc : Nat → Bool} :
    ∀ {m j}, scanDown acc m = some j →
      j < m ∧ acc j = true ∧ ∀ k, j < k → k < m → acc k = false := by
  intro m
  induction m with
  | zero => intro j h; simp [scanDown] at h
  | succ m ih =>
    intro j h
    unfold scanDown at h
    by_cases hm : acc m
    · simp [hm] at h
      subst h
      exact ⟨Nat.lt_succ_self m, hm, fun k hk1 hk2 => absurd hk2 (Nat.not_lt.mpr hk1)⟩
    · simp [hm] at h
      obtain ⟨hj, hacc, hmax⟩ := ih h
      refine ⟨Nat.lt_succ_of_lt hj, hacc, fun k hk1 hk2 => ?_⟩
      rcases Nat.lt_succ_iff_lt_or_eq.mp hk2 with hk | hk
      · exact hmax k hk1 hk
      · subst hk; exact Bool.of_not_eq_true hm

theorem scanDown_none {acc : Nat → Bool} :
    ∀ {m}, scanDown acc m = none → ∀ k, k < m → acc k = false := by
  intro m
  induction m with
  | zero => intro _ k hk; exact absurd hk (Nat.not_lt_zero k)
  | succ m ih =>
    intro h k hk
    unfold scanDown at h
    by_cases hm : acc m
    · simp [hm] at h
    · simp [hm] at h
      rcases Nat.lt_succ_iff_lt_or_eq.mp hk with hk2 | hk2
      · exact ih h k hk2
      · subst hk2; exact Bool.of_not_eq_true hm

theorem scanDown_none_of {acc : Nat → Bool} :
    ∀ {m}, (∀ k, k < m → acc k = false) → scanDown acc m = none := by
  intro m
  induction m with
  | zero => intro _; rfl
  | succ m ih =>
    intro h
    unfold scanDown
    have hm : acc m = false := h m (Nat.lt_succ_self m)
    simp [hm]
    exact ih fun k hk => h k (Nat.lt_succ_of_lt hk)

theorem scanDown_some_of {acc : Nat → Bool} :
    ∀ {m j}, j < m → acc j = true →
      (∀ k, j < k → k < m → acc k = false) → scanDown acc m = some j := by
  intro m
  induction m with
  | zero => intro j hj; exact absurd hj (Nat.not_lt_zero j)
  | succ m ih =>
    intro j hj hacc hmax
    unfold scanDown
    rcases Nat.lt_succ_iff_lt_or_eq.mp hj with hj2 | hj2
    · have hm : acc m = false := hmax m hj2 (Nat.lt_succ_self m)
      simp [hm]
      exact ih hj2 hacc fun k hk1 hk2 => hmax k hk1 (Nat.lt_succ_of_lt hk2)
    · subst hj2; simp [hacc]

theorem go_jn_le (acc : Nat → Nat → Bool) (sh cl : Nat → FV) (n : Nat) :
    ∀ (l : List Nat) (st : LoopState), (go acc sh cl n l st).jn ≤ st.jn := by
  intro l
  induction l with
  | nil => intro st; exact Nat.le_refl _
  | cons i rest ih =>
    intro st
    by_cases hsh : (sh i).neZeroB
    · cases h : scanDown (acc i) st.jn with
      | none => simpa [go, hsh, h] using ih st
      | some j =>
        have hj : j < st.jn := (scanDown_some h).1
        have h1 := ih ⟨min (j + 1) n, upd st.out i (cl j)⟩
        simp [go, hsh, h]
        exact Nat.le_trans h1 (Nat.le_trans (Nat.min_le_left _ _) hj)
    · simpa [go, hsh] using ih st

theorem go_out_frozen (acc : Nat → Nat → Bool) (sh cl : Nat → FV) (n i : Nat)
    (hi : (sh i).neZeroB = false) :
    ∀ (l : List Nat) (st : LoopState), (go acc sh cl n l st).out i = st.out i := by
  intro l
  induction l with
  | nil => intro st; rfl
  | cons a rest ih =>
    intro st
    by_cases hsh : (sh a).neZeroB
    · have hne : a ≠ i := by
        intro heq
        rw [heq, hi] at hsh
        exact Bool.false_ne_true hsh
      cases h : scanDown (acc a) st.jn with
      | none => simpa [go, hsh, h] using ih st
      | some j =>
        have := ih ⟨min (j + 1) n, upd st.out a (cl j)⟩
        simp [go, hsh, h, this, upd]
        intro h2
        exact absurd h2.symm hne
    · simpa [go, hsh] using ih st

theorem pairwise_range_of {R : Nat → Nat → Prop} (n : Nat)
    (h : ∀ i1 i2, i1 < i2 → i2 < n → R i1 i2) : (List.range n).Pairwise R := by
  refine List.pairwise_iff_get.mpr fun i j hij => ?_
  rw [List.get_range, List.get_range]
  exact h i.val j.val hij (by simpa using j.isLt)

theorem go_eq_goIndep (acc : Nat → Nat → Bool) (sh cl : Nat → FV) (n : Nat) :
    ∀ (l : List Nat) (st : LoopState), st.jn ≤ n →
      (∀ i ∈ l, (sh i).neZeroB = true →
        ∀ j, scanDown (acc i) n = some j → j < st.jn) →
      l.Pairwise (hitRel acc sh n) →
      (go acc sh cl n l st).out = goIndep acc sh cl n l st.out := by
  intro l
  induction l with
  | nil => intro st _ _ _; rfl
  | cons i rest ih =>
    intro st hjn hbound hpair
    have hpair2 := List.pairwise_cons.mp hpair
    by_cases hsh : (sh i).neZeroB
    · cases h : scanDown (acc i) n with
      | none =>
        have hnone : scanDown (acc i) st.jn = none :=
          scanDown_none_of fun k hk => scanDown_none h k (Nat.lt_of_lt_of_le hk hjn)
        simp [go, goIndep, hsh, h, hnone]
        exact ih st hjn
          (fun a ha h1 j h2 => hbound a (List.mem_cons_of_mem i ha) h1 j h2) hpair2.2
      | some j =>
        have hj : j < st.jn := hbound i (List.mem_cons_self i rest) hsh j h
        obtain ⟨hjn2, hacc, hmax⟩ := scanDown_some h
        have hshared : scanDown (acc i) st.jn = some j :=
          scanDown_some_of hj hacc fun k hk1 hk2 =>
            hmax k hk1 (Nat.lt_of_lt_of_le hk2 hjn)
        have hmin : min (j + 1) n ≤ n := Nat.min_le_right _ _
        simp [go, goIndep, hsh, h, hshared]
        refine ih ⟨min (j + 1) n, upd st.out i (cl j)⟩ hmin ?_ hpair2.2
        intro a ha h1 j2 h2
        have hle : j2 ≤ j := by
          have := hpair2.1 a ha hsh h1
          rw [h, h2] at this
          simpa [hitLeB] using this
        have hj2n : j2 < n := (scanDown_some h2).1
        exact Nat.lt_min.mpr ⟨Nat.lt_succ_of_le hle, hj2n⟩
    · simp [go, goIndep, hsh]
      exact ih st hjn
        (fun a ha h1 j h2 => hbound a (List.mem_cons_of_mem i ha) h1 j h2) hpair2.2

/-- C1: for every scattering capability, quadrature routine and surface
parameters, the Forward Predictor evaluates the capability at normal
incidence (`th = 0`) and its coherent power is
`R['nn']**2 * exp(-(2*wk*sh)**2)` with `R['nn']`, `wk`, `sh` taken from
that normal-incidence evaluation; with the `db` flag the returned `pc`
is the dB conversion of that same quantity. -/
theorem C1_coherent_power (o : Ops) (quad : (FV → FV) → FV → FV → FV)
    (S : FV → ScatEval) (gain : FV → FV) (th_max : FV) (kind : String) :
    (srf2power_norminc o quad S gain th_max false kind).pc
      = ((S (FV.int 0)).Rnn.sq).mul
          (FV.exp o (((((FV.int 2).mul (S (FV.int 0)).wk).mul (S (FV.int 0)).sh).sq).neg))
    ∧ (srf2power_norminc o quad S gain th_max true kind).pc
      = db10 o (((S (FV.int 0)).Rnn.sq).mul
          (FV.exp o (((((FV.int 2).mul (S (FV.int 0)).wk).mul (S (FV.int 0)).sh).sq).neg))) :=
  ⟨rfl, rfl⟩

/-- C2: the Forward Predictor's linear incoherent power is the
quadrature of the integrand `2*gain(th)**2*arctan(th)/(th**2+1)` from 0
to `th_max` multiplied by the normalized radar cross section sampled
once at `th = 0`. -/
theorem C2_incoherent_power (o : Ops) (quad : (FV → FV) → FV → FV → FV)
    (S : FV → ScatEval) (gain : FV → FV) (th_max : FV) (kind : String) :
    (srf2power_norminc o quad S gain th_max false kind).pn
      = (quad
          (fun th =>
            (((FV.int 2).mul ((gain th).sq)).mul (FV.arctan o th)).div
              ((th.sq).add (FV.int 1)))
          (FV.int 0) th_max).mul ((S (FV.int 0)).nRCS_hh kind) :=
  rfl

/-- C8: the Forward Predictor returns `{pc, pn, ratio}` with
`ratio = pc/pn` computed in linear units; with the `db` flag each of the
three is converted through `10*log10`, and that conversion sends a
finite zero argument to `-Inf` and a finite negative argument to `NaN`,
both returned as ordinary values. -/
theorem C8_output_db_conversion (o : Ops) (quad : (FV → FV) → FV → FV → FV)
    (S : FV → ScatEval) (gain : FV → FV) (th_max : FV) (kind : String) :
    ((srf2power_norminc o quad S gain th_max false kind).ratio
        = (srf2power_norminc o quad S gain th_max false kind).pc.div
            (srf2power_norminc o quad S gain th_max false kind).pn)
    ∧ (srf2power_norminc o quad S gain th_max true kind).pc
        = db10 o (srf2power_norminc o quad S gain th_max false kind).pc
    ∧ (srf2power_norminc o quad S gain th_max true kind).pn
        = db10 o (srf2power_norminc o quad S gain th_max false kind).pn
    ∧ (srf2power_norminc o quad S gain th_max true kind).ratio
        = db10 o (srf2power_norminc o quad S gain th_max false kind).ratio
    ∧ ∀ a : Frac, db10 o (FV.fin a)
        = if a.isZeroB then FV.ninf
          else if a.isNegB then FV.nan
          else (FV.int 10).mul (FV.fin (o.log10Q a)) := by
  refine ⟨rfl, rfl, rfl, rfl, fun a => ?_⟩
  unfold db10 FV.log10
  by_cases h1 : a.isZeroB
  · simp [h1]
    decide
  · by_cases h2 : a.isNegB
    · simp [h1, h2]
      decide
    · simp [h1, h2]

/-- C9: with the spec-modelled quadrature routine, a degenerate
footprint `th_max = 0` makes the incoherent-power integral evaluate to
0, and whenever the sampled cross section is finite the linear
incoherent power denotes zero. -/
theorem C9_degenerate_footprint (o : Ops) (core : (FV → FV) → FV → FV → FV)
    (S : FV → ScatEval) (gain : FV → FV) (th_max : FV) (kind : String)
    (h1 : (FV.int 0).eqvB th_max = true)
    (h2 : ((S (FV.int 0)).nRCS_hh kind).isFin = true) :
    (srf2power_norminc o (quadModel core) S gain th_max false kind).pn.isZeroValB = true
    ∧ ∀ f : FV → FV, quadModel core f (FV.int 0) th_max = FV.int 0 := by
  have hq : ∀ f : FV → FV, quadModel core f (FV.int 0) th_max = FV.int 0 := by
    intro f
    unfold quadModel
    simp [h1]
  refine ⟨?_, hq⟩
  show ((quadModel core _ (FV.int 0) th_max).mul ((S (FV.int 0)).nRCS_hh kind)).isZeroValB
    = true
  rw [hq]
  cases hS : (S (FV.int 0)).nRCS_hh kind with
  | fin b => simp [FV.mul, FV.int, Frac.ofInt, Frac.mul, FV.isZeroValB, Frac.isZeroB]
  | pinf => rw [hS] at h2; simp [FV.isFin] at h2
  | ninf => rw [hS] at h2; simp [FV.isFin] at h2
  | nan => rw [hS] at h2; simp [FV.isFin] at h2

/-- C9 witness: a concrete capability with finite cross section and a
concrete quadrature core, at `th_max = 0`. -/
theorem C9_degenerate_footprint_witness :
    ((FV.int 0).eqvB (FV.int 0) = true
      ∧ ((Ex.S9 (FV.int 0)).nRCS_hh defaultKind).isFin = true)
    ∧ (srf2power_norminc Ex.o (quadModel Ex.core9) Ex.S9
        (fun _ => FV.int 1) (FV.int 0) false defaultKind).pn.isZeroValB = true :=
  ⟨⟨by decide, by decide⟩,
    (C9_degenerate_footprint Ex.o Ex.core9 Ex.S9 (fun _ => FV.int 1) (FV.int 0)
      defaultKind (by decide) (by decide)).1⟩

/-- C10: the Inverse Grid Solver's result does not depend on its `db`
and `kind` arguments: the source never reads them, and the inner
Forward Predictor call runs at its own defaults. -/
theorem C10_db_kind_unused (A : SolverArgs) (db1 db2 : Bool) (kind1 kind2 : String) :
    power2srf_norminc A db1 kind1 = power2srf_norminc A db2 kind2 :=
  rfl

/-- C3: when the analytic rms-height formula is not `NaN`, the solver's
output rms height at index `i` is exactly
`sqrt(log(r(ep[i])**2 / 10**(pc/10))) / (2*wk*cos(th_max))` - the
observed coherent power enters only through the single linear conversion
`10**(pc/10)` - and the inner acceptance test compares the predicted dB
incoherent power against the unconverted `pn` target. -/
theorem C3_rms_height_formula (A : SolverArgs) (i : Nat)
    (h : (shFormula A i).isNaN = false) :
    (power2srf_norminc A true defaultKind).sh i
      = (FV.sqrt A.ops (FV.log A.ops (((A.refl.R (epGrid A i) A.th_max).sq).div
          (FV.pow10 A.ops (A.pc.div (FV.int 10)))))).div
        (((FV.int 2).mul (A.sig.wkOf A.wf)).mul (FV.cos A.ops A.th_max))
    ∧ ∀ j, solverAccept A i j
        = ((solverPn A i j).lt A.pn && !(solverPn A i j).isInf) := by
  constructor
  · show shFixed A i = _
    simp only [shFixed, h, Bool.false_eq_true, if_false]
    rfl
  · intro j
    rfl

/-- C3 witness: at the concrete inputs `Ex.A` the formula is not `NaN`
and the first conjunct evaluates. -/
theorem C3_rms_height_formula_witness :
    (shFormula Ex.A 0).isNaN = false
    ∧ (power2srf_norminc Ex.A true defaultKind).sh 0
      = (FV.sqrt Ex.A.ops (FV.log Ex.A.ops
          (((Ex.A.refl.R (epGrid Ex.A 0) Ex.A.th_max).sq).div
            (FV.pow10 Ex.A.ops (Ex.A.pc.div (FV.int 10)))))).div
        (((FV.int 2).mul (Ex.A.sig.wkOf Ex.A.wf)).mul (FV.cos Ex.A.ops Ex.A.th_max)) :=
  ⟨by decide, (C3_rms_height_formula Ex.A 0 (by decide)).1⟩

/-- C4: for an active permittivity index (`sh[i] != 0`), the inner scan
over candidates `jn-1 .. 0` accepts exactly the highest candidate `j`
below `jn` passing the test - every candidate strictly between `j` and
`jn` fails - records `cl_out[i] = cl[j]`, clamps `jn` to `min(j+1, n)`
and stops; when no candidate passes, nothing changes for this index;
and the acceptance test is `pn_pred < pn_target` with `pn_pred` not
infinite. -/
theorem C4_inner_scan (A : SolverArgs) (i jn : Nat) (out : Nat → FV)
    (rest : List Nat) (hsh : (shFixed A i).neZeroB = true) :
    (∀ j, scanDown (solverAccept A i) jn = some j →
        solverAccept A i j = true ∧ j < jn
        ∧ (∀ k, j < k → k < jn → solverAccept A i k = false)
        ∧ go (solverAccept A) (shFixed A) (clGrid A) A.n (i :: rest) ⟨jn, out⟩
            = go (solverAccept A) (shFixed A) (clGrid A) A.n rest
                ⟨min (j + 1) A.n, upd out i (clGrid A j)⟩)
    ∧ (scanDown (solverAccept A i) jn = none →
        (∀ k, k < jn → solverAccept A i k = false)
        ∧ go (solverAccept A) (shFixed A) (clGrid A) A.n (i :: rest) ⟨jn, out⟩
            = go (solverAccept A) (shFixed A) (clGrid A) A.n rest ⟨jn, out⟩)
    ∧ ∀ j, solverAccept A i j
        = ((solverPn A i j).lt A.pn && !(solverPn A i j).isInf) := by
  refine ⟨fun j hj => ?_, fun hn => ?_, fun j => rfl⟩
  · obtain ⟨h1, h2, h3⟩ := scanDown_some hj
    exact ⟨h2, h1, h3, by simp [go, hsh, hj]⟩
  · exact ⟨scanDown_none hn, by simp [go, hsh, hn]⟩

/-- C4 witness: index 0 of the concrete inputs `Ex.A` is active, its
scan from bound 2 accepts candidate 0, and the loop step rewrites
accordingly. -/
theorem C4_inner_scan_witness :
    ((shFixed Ex.A 0).neZeroB = true
      ∧ scanDown (solverAccept Ex.A 0) 2 = some 0)
    ∧ go (solverAccept Ex.A) (shFixed Ex.A) (clGrid Ex.A) Ex.A.n
        (0 :: [1]) ⟨2, cloutInit Ex.A⟩
      = go (solverAccept Ex.A) (shFixed Ex.A) (clGrid Ex.A) Ex.A.n
          [1] ⟨min 1 Ex.A.n, upd (cloutInit Ex.A) 0 (clGrid Ex.A 0)⟩ :=
  ⟨⟨by decide, by decide⟩,
    (((C4_inner_scan Ex.A 0 2 (cloutInit Ex.A) [1] (by decide)).1) 0
      (by decide)).2.2.2⟩

/-- C5: where the analytic rms-height formula yields `NaN`, the solver
outputs `sh[i] = 0` exactly, the loop step for that index performs no
correlation-length search (it changes neither `jn` nor `cl_out`), and
the final `cl_out[i]` is `NaN`, for every correlation-length grid. -/
theorem C5_nan_sh_no_search (A : SolverArgs) (i : Nat)
    (h : (shFormula A i).isNaN = true) :
    (power2srf_norminc A true defaultKind).sh i = FV.int 0
    ∧ (power2srf_norminc A true defaultKind).cl i = FV.nan
    ∧ ∀ (rest : List Nat) (st : LoopState),
        go (solverAccept A) (shFixed A) (clGrid A) A.n (i :: rest) st
          = go (solverAccept A) (shFixed A) (clGrid A) A.n rest st := by
  have hz : shFixed A i = FV.int 0 := by simp [shFixed, h]
  have hne : (shFixed A i).neZeroB = false := by rw [hz]; decide
  refine ⟨hz, ?_, fun rest st => by simp [go, hne]⟩
  show (go (solverAccept A) (shFixed A) (clGrid A) A.n (List.range A.n)
      ⟨A.n, cloutInit A⟩).out i = FV.nan
  rw [go_out_frozen (solverAccept A) (shFixed A) (clGrid A) A.n i hne]
  rfl

/-- C5 witness: at the concrete inputs `Ex.AN` the formula at index 0 is
`NaN`, the output rms height is 0 and the output correlation length is
`NaN`. -/
theorem C5_nan_sh_no_search_witness :
    (shFormula Ex.AN 0).isNaN = true
    ∧ (power2srf_norminc Ex.AN true defaultKind).sh 0 = FV.int 0
    ∧ (power2srf_norminc Ex.AN true defaultKind).cl 0 = FV.nan :=
  ⟨by decide,
    (C5_nan_sh_no_search Ex.AN 0 (by decide)).1,
    (C5_nan_sh_no_search Ex.AN 0 (by decide)).2.1⟩

/-- C6: the solver's search state starts at the full bound `n`, the
bound never increases over any run of the loop, and after a successful
step at candidate `j` (within a bound not exceeding `n`) the remaining
loop runs with bound `j + 1`, so the next index's scan starts at the
last successful index. -/
theorem C6_shared_bound (A : SolverArgs) :
    (power2srf_norminc A true defaultKind).cl
      = (go (solverAccept A) (shFixed A) (clGrid A) A.n (List.range A.n)
          ⟨A.n, cloutInit A⟩).out
    ∧ (∀ (l : List Nat) (st : LoopState),
        (go (solverAccept A) (shFixed A) (clGrid A) A.n l st).jn ≤ st.jn)
    ∧ ∀ (i : Nat) (rest : List Nat) (st : LoopState) (j : Nat),
        st.jn ≤ A.n → (shFixed A i).neZeroB = true →
        scanDown (solverAccept A i) st.jn = some j →
        go (solverAccept A) (shFixed A) (clGrid A) A.n (i :: rest) st
          = go (solverAccept A) (shFixed A) (clGrid A) A.n rest
              ⟨j + 1, upd st.out i (clGrid A j)⟩ := by
  refine ⟨rfl, go_jn_le _ _ _ _, fun i rest st j hle hsh hj => ?_⟩
  have hjlt : j < st.jn := (scanDown_some hj).1
  have hmin : min (j + 1) A.n = j + 1 :=
    Nat.min_eq_left (Nat.succ_le_of_lt (Nat.lt_of_lt_of_le hjlt hle))
  simp [go, hsh, hj, hmin]

/-- C6 witness: at the concrete inputs `Ex.A`, the successful step of
index 0 at candidate 0 hands the rest of the loop the bound `0 + 1`. -/
theorem C6_shared_bound_witness :
    (2 ≤ Ex.A.n ∧ (shFixed Ex.A 0).neZeroB = true
      ∧ scanDown (solverAccept Ex.A 0) 2 = some 0)
    ∧ go (solverAccept Ex.A) (shFixed Ex.A) (clGrid Ex.A) Ex.A.n
        (0 :: [1]) ⟨2, cloutInit Ex.A⟩
      = go (solverAccept Ex.A) (shFixed Ex.A) (clGrid Ex.A) Ex.A.n
          [1] ⟨0 + 1, upd (cloutInit Ex.A) 0 (clGrid Ex.A 0)⟩ :=
  ⟨⟨by decide, by decide, by decide⟩,
    (C6_shared_bound Ex.A).2.2 0 [1] ⟨2, cloutInit Ex.A⟩ 0
      (by decide) (by decide) (by decide)⟩

/-- C7 counterexample: with the concrete inputs `Ex.A`, whose acceptance
crossing moves up with permittivity, the shared-bound solver and the
independent-search variant return different correlation lengths at
index 1 (the shared bound hides the candidate the independent search
accepts), so the claimed unconditional equality is false. -/
theorem C7_counterexample :
    (power2srf_norminc Ex.A false defaultKind).cl 1
      ≠ (power2srf_indep Ex.A false defaultKind).cl 1 := by
  decide

/-- C7 amended: under the monotone-crossing assumption `hitMono` - over
the active permittivity indices, the independently-found accepted
candidate indices never increase - the shared shrinking bound is a pure
optimization: the solver returns exactly the same `SurfaceEstimate` as
the independent variant that restarts every search at `jn = n`. -/
theorem C7_shared_bound_refinement (A : SolverArgs) (h : hitMono A)
    (db : Bool) (kind : String) :
    power2srf_norminc A db kind = power2srf_indep A db kind := by
  have key : (go (solverAccept A) (shFixed A) (clGrid A) A.n (List.range A.n)
        ⟨A.n, cloutInit A⟩).out
      = goIndep (solverAccept A) (shFixed A) (clGrid A) A.n (List.range A.n)
          (cloutInit A) := by
    apply go_eq_goIndep
    · exact Nat.le_refl _
    · exact fun i _ _ j hj => (scanDown_some hj).1
    · exact pairwise_range_of _ fun i1 i2 h12 h2n a1 a2 =>
        h i1 (Nat.lt_trans h12 h2n) i2 h2n h12 a1 a2
  simp only [power2srf_norminc, power2srf_indep]
  rw [key]

/-- C7 witness: the concrete inputs `Ex.B` satisfy the monotone-crossing
assumption and the two solvers agree on them. -/
theorem C7_shared_bound_refinement_witness :
    hitMono Ex.B
    ∧ power2srf_norminc Ex.B false defaultKind
      = power2srf_indep Ex.B false defaultKind :=
  ⟨by unfold hitMono; decide,
    C7_shared_bound_refinement Ex.B (by unfold hitMono; decide) false defaultKind⟩
